import Mathlib

/-!
# Verification of the content-safe incremental write subsystem

Shallow embedding of the MCP filesystem server's write subsystem:
the overlap-detection engine (`findMaxOverlapSimple`, `findMaxOverlapRabinKarp`),
the incremental append engine (`smartAppend`), the completion-marker gate and
write-strategy selector (`isContentComplete`, `removeCompletionMarker`,
`determineOptimalWriteMethod`, `enhancedPerformOptimizedWrite`), the size-limited
reader (`readFileWithSizeLimit`), the tool argument schema for `smart_append_file`,
and the file-handle event traces of the chunked readers.

JavaScript strings are modelled as lists of UTF-16 code units (`List Nat`).
Text files are modelled by the code-unit sequence they decode to; a file's
on-disk size in bytes is computed by `utf8ByteLength`, the byte length of the
UTF-8 encoding that `fs.writeFile`/`fs.appendFile` with encoding `"utf8"`
produce (this is Node's `Buffer.byteLength(s, "utf8")`).
-/

/-- The set of JavaScript whitespace code points: the class matched by the
regexp escape `\s` and trimmed by `String.prototype.trim`. -/
def isJsWs (c : Nat) : Bool :=
  c = 0x9 || c = 0xA || c = 0xB || c = 0xC || c = 0xD || c = 0x20 || c = 0xA0 ||
  c = 0x1680 || (0x2000 ≤ c && c ≤ 0x200A) || c = 0x2028 || c = 0x2029 ||
  c = 0x202F || c = 0x205F || c = 0x3000 || c = 0xFEFF

/-- Code-unit list of a Lean string literal (all literals we use are from the
basic multilingual plane, where code points and UTF-16 code units coincide). -/
def s2u (s : String) : List Nat :=
  s.data.map Char.toNat

/-- `String.prototype.trim`: remove JavaScript whitespace from both ends. -/
def jsTrim (s : List Nat) : List Nat :=
  ((s.dropWhile isJsWs).reverse.dropWhile isJsWs).reverse

/-- `Buffer.byteLength(s, "utf8")` for a UTF-16 code-unit sequence: 1 byte
below `0x80`, 2 below `0x800`, 4 for a surrogate pair, 3 for a lone surrogate
(encoded as U+FFFD) and 3 otherwise. -/
def utf8ByteLength : List Nat → Nat
  | [] => 0
  | u :: rest =>
    if u < 0x80 then 1 + utf8ByteLength rest
    else if u < 0x800 then 2 + utf8ByteLength rest
    else if 0xD800 ≤ u ∧ u < 0xDC00 then
      match rest with
      | v :: rest2 =>
        if 0xDC00 ≤ v ∧ v < 0xE000 then 4 + utf8ByteLength rest2
        else 3 + utf8ByteLength (v :: rest2)
      | [] => 3
    else 3 + utf8ByteLength rest

/-! ## Overlap Detector -/

/-- `str1.slice(-len) === str2.slice(0, len)`: the last `len` code units of
`s1` equal the first `len` code units of `s2` (for `len ≤ s1.length`). -/
def overlapAt (s1 s2 : List Nat) (len : Nat) : Bool :=
  s1.drop (s1.length - len) == s2.take len

/-- The descending candidate loop of `findMaxOverlapSimple` (source
`part_000`, lines 163-167): try `len, len-1, …, 1`, return the first length
whose slices match, else 0. -/
def findMaxOverlapGo (s1 s2 : List Nat) : Nat → Nat
  | 0 => 0
  | n + 1 => if overlapAt s1 s2 (n + 1) then n + 1 else findMaxOverlapGo s1 s2 n

/-- `findMaxOverlapSimple` (source `part_000`, lines 159-170): direct
comparison from the largest candidate `min |s1| |s2|` downwards. -/
def findMaxOverlapSimple (s1 s2 : List Nat) : Nat :=
  findMaxOverlapGo s1 s2 (min s1.length s2.length)

theorem findMaxOverlapGo_le (s1 s2 : List Nat) : ∀ n, findMaxOverlapGo s1 s2 n ≤ n := by
  intro n
  induction n with
  | zero => simp [findMaxOverlapGo]
  | succ n ih =>
    simp only [findMaxOverlapGo]
    split
    · exact Nat.le_refl _
    · exact Nat.le_succ_of_le ih

theorem overlapAt_zero (s1 s2 : List Nat) : overlapAt s1 s2 0 = true := by
  simp [overlapAt]

theorem findMaxOverlapGo_spec (s1 s2 : List Nat) :
    ∀ n, overlapAt s1 s2 (findMaxOverlapGo s1 s2 n) = true := by
  intro n
  induction n with
  | zero => simpa [findMaxOverlapGo] using overlapAt_zero s1 s2
  | succ n ih =>
    simp only [findMaxOverlapGo]
    split
    · assumption
    · exact ih

theorem findMaxOverlapGo_max (s1 s2 : List Nat) :
    ∀ n k, k ≤ n → overlapAt s1 s2 k = true → k ≤ findMaxOverlapGo s1 s2 n := by
  intro n
  induction n with
  | zero => intro k hk _; simpa [findMaxOverlapGo] using hk
  | succ n ih =>
    intro k hk hat
    simp only [findMaxOverlapGo]
    split
    · exact hk
    · rcases Nat.lt_or_ge k (n + 1) with h | h
      · exact ih k (Nat.lt_succ_iff.mp h) hat
      · exfalso
        have : k = n + 1 := Nat.le_antisymm hk h
        subst this
        simp_all

theorem findMaxOverlapSimple_le (s1 s2 : List Nat) :
    findMaxOverlapSimple s1 s2 ≤ min s1.length s2.length :=
  findMaxOverlapGo_le s1 s2 _

theorem findMaxOverlapSimple_overlap (s1 s2 : List Nat) :
    overlapAt s1 s2 (findMaxOverlapSimple s1 s2) = true :=
  findMaxOverlapGo_spec s1 s2 _

theorem findMaxOverlapSimple_max (s1 s2 : List Nat) (k : Nat)
    (hk : k ≤ min s1.length s2.length) (hat : overlapAt s1 s2 k = true) :
    k ≤ findMaxOverlapSimple s1 s2 :=
  findMaxOverlapGo_max s1 s2 _ k hk hat

/-! ## Rabin-Karp overlap detector -/

/-- Hash modulus of `findMaxOverlapRabinKarp` (source `part_000`, line 190).
All intermediate JavaScript numbers in the hash computations stay below
2^53, so plain `Nat` arithmetic with `% RK_MOD` models them exactly. -/
def RK_MOD : Nat := 1000000007

/-- Minimum meaningful overlap length (source `part_000`, line 182). -/
def MIN_OVERLAP : Nat := 4

/-- `powers[i] = 256^i % MOD` (source `part_000`, lines 193-196; the
`reversePowers` array, lines 206-209, computes the same values). -/
def powMod : Nat → Nat
  | 0 => 1
  | n + 1 => powMod n * 256 % RK_MOD

/-- `prefixHashes[len]`: rolling hash of the first `len` code units of `s`
(source `part_000`, lines 199-203). -/
def prefixHash (s : List Nat) : Nat → Nat
  | 0 => 0
  | n + 1 => (prefixHash s n * 256 % RK_MOD + s.getD n 0) % RK_MOD

/-- `suffixHashes[len]`: hash of the last `len` code units of `s`, built from
the last unit inwards (source `part_000`, lines 212-216). -/
def suffixHash (s : List Nat) : Nat → Nat
  | 0 => 0
  | n + 1 => (suffixHash s n + s.getD (s.length - (n + 1)) 0 * powMod n) % RK_MOD

/-- The descending hash-comparison loop of `findMaxOverlapRabinKarp` (source
`part_000`, lines 222-236): for `len` from the start value down to
`MIN_OVERLAP`, if the suffix and prefix hashes agree AND the direct slice
comparison confirms the match, return `len`; if the loop runs out, 0. -/
def rkLoop (s1 s2 : List Nat) : Nat → Nat
  | 0 => 0
  | n + 1 =>
    if n + 1 < MIN_OVERLAP then 0
    else if suffixHash s1 (n + 1) = prefixHash s2 (n + 1) ∧ overlapAt s1 s2 (n + 1) = true then
      n + 1
    else rkLoop s1 s2 n

/-- `findMaxOverlapRabinKarp` (source `part_000`, lines 177-239): returns 0
for empty inputs, delegates to the simple algorithm when the maximum possible
overlap is below `MIN_OVERLAP`, and otherwise runs the hash loop. -/
def findMaxOverlapRabinKarp (s1 s2 : List Nat) : Nat :=
  let maxPossible := min s1.length s2.length
  if maxPossible = 0 then 0
  else if maxPossible < MIN_OVERLAP then findMaxOverlapSimple s1 s2
  else rkLoop s1 s2 maxPossible

/-- Unreduced polynomial value of a code-unit list in base 256 (for relating
the two hash recurrences to the string content). -/
def polyVal (t : List Nat) : Nat :=
  t.foldl (fun a c => a * 256 + c) 0

theorem polyVal_foldl (t : List Nat) :
    ∀ a, t.foldl (fun a c => a * 256 + c) a = a * 256 ^ t.length + polyVal t := by
  induction t with
  | nil => intro a; simp [polyVal]
  | cons c t ih =>
    intro a
    have hc : polyVal (c :: t) = c * 256 ^ t.length + polyVal t := by
      simpa [polyVal] using ih c
    simp only [List.foldl_cons, List.length_cons]
    rw [ih (a * 256 + c), hc]
    ring

theorem polyVal_cons (c : Nat) (t : List Nat) :
    polyVal (c :: t) = c * 256 ^ t.length + polyVal t := by
  have h := polyVal_foldl t c
  simpa [polyVal] using h

theorem polyVal_append_singleton (t : List Nat) (c : Nat) :
    polyVal (t ++ [c]) = polyVal t * 256 + c := by
  simp [polyVal, List.foldl_append]

theorem powMod_eq (n : Nat) : powMod n = 256 ^ n % RK_MOD := by
  induction n with
  | zero => decide
  | succ n ih =>
    rw [powMod, ih, Nat.pow_succ]
    conv_rhs => rw [Nat.mul_mod, show (256 : Nat) % RK_MOD = 256 from by decide]

theorem prefixHash_eq (s : List Nat) :
    ∀ n, n ≤ s.length → prefixHash s n = polyVal (s.take n) % RK_MOD := by
  intro n
  induction n with
  | zero => intro _; simp [prefixHash, polyVal]
  | succ n ih =>
    intro hn
    have hlt : n < s.length := Nat.lt_of_succ_le hn
    have htake : s.take (n + 1) = s.take n ++ [s.getD n 0] := by
      rw [List.take_succ]
      congr 1
      rw [List.getD_eq_getElem?_getD]
      simp [List.getElem?_eq_getElem hlt]
    simp only [prefixHash, ih (Nat.le_of_lt hlt), htake, polyVal_append_singleton]
    have step1 : polyVal (s.take n) % RK_MOD ≡ polyVal (s.take n) [MOD RK_MOD] :=
      Nat.mod_modEq _ _
    have step2 : polyVal (s.take n) % RK_MOD * 256 % RK_MOD ≡
        polyVal (s.take n) * 256 [MOD RK_MOD] :=
      (Nat.mod_modEq _ _).trans (step1.mul_right 256)
    exact step2.add_right (s.getD n 0)

theorem suffixHash_eq (s : List Nat) :
    ∀ n, n ≤ s.length → suffixHash s n = polyVal (s.drop (s.length - n)) % RK_MOD := by
  intro n
  induction n with
  | zero => intro _; simp [suffixHash, polyVal]
  | succ n ih =>
    intro hn
    have hidx : s.length - (n + 1) < s.length := by omega
    have hdrop : s.drop (s.length - (n + 1)) =
        s.getD (s.length - (n + 1)) 0 :: s.drop (s.length - n) := by
      rw [List.drop_eq_getElem_cons hidx]
      congr 1
      · rw [List.getD_eq_getElem?_getD]
        simp [List.getElem?_eq_getElem hidx]
      · congr 1
        omega
    have hlen : (s.drop (s.length - n)).length = n := by
      rw [List.length_drop]
      omega
    simp only [suffixHash, ih (by omega), hdrop, polyVal_cons, hlen, powMod_eq]
    conv_rhs => rw [Nat.add_mod, Nat.mul_mod]
    rw [Nat.add_mod, Nat.mul_mod, Nat.mod_mod, Nat.mod_mod]
    ring_nf

theorem hash_eq_of_overlapAt (s1 s2 : List Nat) (k : Nat)
    (h1 : k ≤ s1.length) (h2 : k ≤ s2.length) (hat : overlapAt s1 s2 k = true) :
    suffixHash s1 k = prefixHash s2 k := by
  have heq : s1.drop (s1.length - k) = s2.take k := by
    simpa [overlapAt] using hat
  rw [suffixHash_eq s1 k h1, prefixHash_eq s2 k h2, heq]

theorem rkLoop_eq (s1 s2 : List Nat) :
    ∀ n, n ≤ min s1.length s2.length →
      rkLoop s1 s2 n =
        if MIN_OVERLAP ≤ findMaxOverlapGo s1 s2 n then findMaxOverlapGo s1 s2 n else 0 := by
  intro n
  induction n with
  | zero => intro _; simp [rkLoop, findMaxOverlapGo, MIN_OVERLAP]
  | succ n ih =>
    intro hn
    by_cases hsmall : n + 1 < MIN_OVERLAP
    · have hle := findMaxOverlapGo_le s1 s2 (n + 1)
      simp only [rkLoop]
      rw [if_pos hsmall, if_neg (by omega)]
    · by_cases hat : overlapAt s1 s2 (n + 1) = true
      · have hhash : suffixHash s1 (n + 1) = prefixHash s2 (n + 1) :=
          hash_eq_of_overlapAt s1 s2 (n + 1)
            (Nat.le_trans hn (Nat.min_le_left _ _))
            (Nat.le_trans hn (Nat.min_le_right _ _)) hat
        have hgo : findMaxOverlapGo s1 s2 (n + 1) = n + 1 := by
          simp [findMaxOverlapGo, hat]
        rw [hgo]
        simp only [rkLoop]
        rw [if_neg hsmall, if_pos ⟨hhash, hat⟩, if_pos (Nat.le_of_not_lt hsmall)]
      · have hcond : ¬(suffixHash s1 (n + 1) = prefixHash s2 (n + 1) ∧
            overlapAt s1 s2 (n + 1) = true) := fun h => hat h.2
        have hgo : findMaxOverlapGo s1 s2 (n + 1) = findMaxOverlapGo s1 s2 n := by
          simp [findMaxOverlapGo, hat]
        rw [hgo]
        simp only [rkLoop]
        rw [if_neg hsmall, if_neg hcond]
        exact ih (Nat.le_of_succ_le hn)

theorem findMaxOverlapRabinKarp_eq (s1 s2 : List Nat) :
    findMaxOverlapRabinKarp s1 s2 =
      if min s1.length s2.length < MIN_OVERLAP then findMaxOverlapSimple s1 s2
      else if MIN_OVERLAP ≤ findMaxOverlapSimple s1 s2 then findMaxOverlapSimple s1 s2
      else 0 := by
  unfold findMaxOverlapRabinKarp
  by_cases h0 : min s1.length s2.length = 0
  · rw [if_pos h0, if_pos (by rw [h0]; decide)]
    unfold findMaxOverlapSimple
    rw [h0]
    rfl
  · rw [if_neg h0]
    by_cases hsmall : min s1.length s2.length < MIN_OVERLAP
    · rw [if_pos hsmall, if_pos hsmall]
    · rw [if_neg hsmall, if_neg hsmall]
      exact rkLoop_eq s1 s2 (min s1.length s2.length) (Nat.le_refl _)

/-! ## Incremental Append Engine: smartAppend -/

/-- `MAX_CHUNK_SIZE` (source `part_000`, line 77). -/
def MAX_CHUNK_SIZE : Nat := 1024 * 1024

/-- `MAX_FILE_SIZE_FOR_FULL_READ` (source `part_000`, line 78). -/
def MAX_FILE_SIZE_FOR_FULL_READ : Nat := 10 * 1024 * 1024

/-- `MAX_ITERATIONS` (source `part_000`, line 80). -/
def MAX_ITERATIONS : Nat := 6

/-- The dynamic buffer-growth loop of `smartAppend` (source `part_000`,
lines 115-142), returning the overlap it settles on. `fuel` is
`MAX_ITERATIONS - iterations`, the number of chunk doublings still allowed;
each call models one pass of the `while` body. The byte window read from the
end of the file (`start = max(0, size - chunkSize)`, `min(size, chunkSize)`
bytes) is modelled as the corresponding code-unit window. Result `none`
models the loop never terminating, which the source code does when
`chunkSize` has reached `MAX_CHUNK_SIZE` with no overlap found (the guard at
line 136 then stops growing the chunk, so the `while` condition never
changes); no claim depends on that branch. -/
def chunkedOverlap (existing content : List Nat) (smallThreshold : Nat) :
    Nat → Nat → Option Nat
  | _, 0 => some 0
  | chunkSize, fuel + 1 =>
    if chunkSize ≤ MAX_CHUNK_SIZE then
      let windowLen := min existing.length chunkSize
      let tail := existing.drop (existing.length - windowLen)
      let ov := if smallThreshold < chunkSize then findMaxOverlapRabinKarp tail content
                else findMaxOverlapSimple tail content
      if ov = 0 then
        if chunkSize < MAX_CHUNK_SIZE then
          chunkedOverlap existing content smallThreshold (chunkSize * 2) fuel
        else none
      else some ov
    else some 0

/-- `smartAppend` (source `part_000`, lines 75-153), as a transformer of the
target file's content (`none` = the file does not exist). If the file is
missing, the content is written as-is. If the content is small (at most
`4 * initialChunkSize` encoded bytes, the `SMALL_CONTENT_THRESHOLD`) or the
file is at most `MAX_FILE_SIZE_FOR_FULL_READ` bytes, the whole file is read
and `content[overlap:]` is appended, with the overlap found by
`findMaxOverlapSimple`. Otherwise the chunked tail-read loop runs. The
full-read branch's `catch` fallback (a failing whole-file read falls through
to the chunked loop) is not modelled: reads of the modelled store do not
fail. -/
def smartAppend (file : Option (List Nat)) (content : List Nat)
    (initialChunkSize : Nat) : Option (List Nat) :=
  match file with
  | none => some content
  | some existing =>
    if utf8ByteLength content ≤ initialChunkSize * 4 ∨
        utf8ByteLength existing ≤ MAX_FILE_SIZE_FOR_FULL_READ then
      some (existing ++ content.drop (findMaxOverlapSimple existing content))
    else
      match chunkedOverlap existing content (initialChunkSize * 4)
          initialChunkSize MAX_ITERATIONS with
      | some ov => some (existing ++ content.drop ov)
      | none => none

theorem smartAppend_full_read (existing content : List Nat) (chunk : Nat)
    (h : utf8ByteLength content ≤ chunk * 4 ∨
      utf8ByteLength existing ≤ MAX_FILE_SIZE_FOR_FULL_READ) :
    smartAppend (some existing) content chunk =
      some (existing ++ content.drop (findMaxOverlapSimple existing content)) := by
  simp only [smartAppend, if_pos h]

/-- After a merge-append of `content` onto `existing`, the file ends with the
whole of `content`, so the overlap of a resubmission is everything. -/
theorem findMaxOverlapSimple_after_merge (existing content : List Nat) :
    findMaxOverlapSimple
      (existing ++ content.drop (findMaxOverlapSimple existing content)) content =
      content.length := by
  set k := findMaxOverlapSimple existing content with hk
  have hkle : k ≤ min existing.length content.length := findMaxOverlapSimple_le _ _
  have hk1 : k ≤ existing.length := Nat.le_trans hkle (Nat.min_le_left _ _)
  have hk2 : k ≤ content.length := Nat.le_trans hkle (Nat.min_le_right _ _)
  have hmatch : existing.drop (existing.length - k) = content.take k := by
    have := findMaxOverlapSimple_overlap existing content
    rw [← hk] at this
    simpa [overlapAt] using this
  set F := existing ++ content.drop k with hF
  have hlenF : F.length = existing.length + (content.length - k) := by
    simp [hF]
  have hcontentle : content.length ≤ F.length := by omega
  have hdropF : F.drop (F.length - content.length) = content := by
    have hidx : F.length - content.length = existing.length - k := by omega
    rw [hidx, hF, List.drop_append_of_le_length (by omega), hmatch,
      List.take_append_drop]
  have hat : overlapAt F content content.length = true := by
    simp [overlapAt, hdropF]
  have hge : content.length ≤ findMaxOverlapSimple F content :=
    findMaxOverlapSimple_max F content content.length
      (by rw [Nat.min_def]; split <;> omega) hat
  have hle2 : findMaxOverlapSimple F content ≤ content.length :=
    Nat.le_trans (findMaxOverlapSimple_le F content) (Nat.min_le_right _ _)
  omega

/-! ## Completion-Marker Gate and Write-Strategy Selector -/

/-- A write payload: a JavaScript string (code units) or a binary `Buffer`
(bytes), mirroring the `string | Buffer` union in
`lib/content-completion-marker.ts`. -/
inductive JSContent where
  | str (s : List Nat)
  | buf (b : List Nat)
deriving DecidableEq

/-- `ContentCompletionConfig` (source `part_011`, lines 9-18); the `DEBUG`
flag only controls logging and is omitted. -/
structure CCConfig where
  marker : List Nat
  largeThreshold : Nat
  binaryExts : List (List Nat)
deriving DecidableEq

/-- `DEFAULT_CONFIG` (source `part_011`, lines 21-26). -/
def DEFAULT_CONFIG : CCConfig where
  marker := s2u "// END_OF_CONTENT"
  largeThreshold := 100000
  binaryExts :=
    [s2u ".bin", s2u ".pdf", s2u ".doc", s2u ".docx", s2u ".xls", s2u ".xlsx",
     s2u ".zip", s2u ".rar", s2u ".7z", s2u ".tar", s2u ".gz"]

/-- `isContentComplete` (source `part_011`, lines 34-45): binary content is
always complete; text content is complete iff its trimmed form ends with the
configured marker. -/
def isContentComplete (content : JSContent) (cfg : CCConfig) : Bool :=
  match content with
  | .buf _ => true
  | .str s => cfg.marker.isSuffixOf (jsTrim s)

/-- The regexp `new RegExp(marker + "\\s*$")` matches at position `i` iff the
literal marker occurs at `i` and everything after it is JavaScript
whitespace (`$` in JavaScript, without the `m` flag, matches only at the very
end of the string). -/
def trailingMarkerAt (s marker : List Nat) (i : Nat) : Bool :=
  marker.isPrefixOf (s.drop i) && (s.drop (i + marker.length)).all isJsWs

/-- Whether `content.replace(new RegExp(marker + "\\s*$"), '')` finds a
match anywhere. -/
def hasTrailingMarker (s marker : List Nat) : Bool :=
  (List.range (s.length + 1)).any (trailingMarkerAt s marker)

/-- `removeCompletionMarker` (source `part_011`, lines 53-64):
`content.replace(new RegExp(marker + "\\s*$"), '')`. `String.prototype.replace`
with a non-global regexp removes the leftmost match, which here runs from the
match position to the end of the string, so the result is the part before
that position. Binary content is returned unchanged. The configured marker
(`// END_OF_CONTENT`) contains no regexp metacharacters, so the pattern
matches it literally. -/
def removeCompletionMarker (content : JSContent) (cfg : CCConfig) : JSContent :=
  match content with
  | .buf b => .buf b
  | .str s =>
    match (List.range (s.length + 1)).find? (trailingMarkerAt s cfg.marker) with
    | some i => .str (s.take i)
    | none => .str s

/-- The write functions a caller can request (`requestedFunction` in
`lib/content-completion-integration.ts`, line 29). -/
inductive ReqFn where
  | write_file
  | append_file
  | smart_append_file
deriving DecidableEq

/-- The strategies `determineOptimalWriteMethod` can emit (source `part_011`,
line 93). -/
inductive WriteMethod where
  | write_file
  | smart_append_file
deriving DecidableEq

/-- `content.length` for a string (UTF-16 code units) and
`content.byteLength` for a `Buffer` (source `part_011`, line 126). -/
def contentSizeOf (content : JSContent) : Nat :=
  match content with
  | .str s => s.length
  | .buf b => b.length

/-- `determineOptimalWriteMethod` (source `part_011`, lines 91-149). Rules in
source order: full rewrite ⇒ `write_file`; text content missing the
completion marker ⇒ `smart_append_file`; content larger than the configured
threshold ⇒ `smart_append_file`; existing file ⇒ `write_file` only when
explicitly requested, otherwise `smart_append_file`; else `write_file`.
The `path` argument is accepted but, as in the source, used only for debug
logging, never for the decision. -/
def determineOptimalWriteMethod (path : List Nat) (content : JSContent)
    (fileExists : Bool) (requested : Option ReqFn) (isFullRewrite : Bool)
    (cfg : CCConfig) : WriteMethod :=
  if isFullRewrite then .write_file
  else if (match content with
           | .str _ => !(isContentComplete content cfg)
           | .buf _ => false : Bool) then .smart_append_file
  else if cfg.largeThreshold < contentSizeOf content then .smart_append_file
  else if fileExists then
    if requested = some .write_file then .write_file else .smart_append_file
  else .write_file

/-- `prepareWriteOperation` (source `part_011`, lines 169-208): strips the
completion marker from the content and replaces `requestedFunction` with the
selector's choice. -/
structure PreparedWrite where
  content : JSContent
  requestedFunction : WriteMethod
deriving DecidableEq

def prepareWriteOperation (path : List Nat) (content : JSContent)
    (fileExists : Bool) (requested : Option ReqFn) (isFullRewrite : Bool)
    (cfg : CCConfig) : PreparedWrite where
  content := removeCompletionMarker content cfg
  requestedFunction :=
    determineOptimalWriteMethod path content fileExists requested isFullRewrite cfg

/-- Raw data of a modelled file store entry. -/
def contentData (content : JSContent) : List Nat :=
  match content with
  | .str s => s
  | .buf b => b

/-- `enhancedPerformOptimizedWrite` (source
`lib/content-completion-integration.ts`, lines 45-142) as a transformer of
the target file (`none` = missing), returning the final file content and the
strategy executed. `fileExists`/`fileSize` are derived from the store as the
source derives them from `fs.stat`. The `write_file` branch overwrites with
the cleaned content. The `smart_append_file` branch is the source's inline
implementation (lines 96-115): for text it writes the file if missing and
otherwise PLAIN-appends the cleaned content (the code comments call this a
temporary stand-in for `smartAppend`); for binary it overwrites. -/
def enhancedPerformOptimizedWrite (file : Option (List Nat))
    (content : JSContent) (requested : Option ReqFn) (isFullRewrite : Bool)
    (cfg : CCConfig) : Option (List Nat) × WriteMethod :=
  let fileExists := file.isSome
  let prepared := prepareWriteOperation (s2u "") content fileExists requested
    isFullRewrite cfg
  let cleaned := prepared.content
  match prepared.requestedFunction with
  | .write_file => (some (contentData cleaned), .write_file)
  | .smart_append_file =>
    match cleaned with
    | .str s =>
      match file with
      | none => (some s, .smart_append_file)
      | some existing => (some (existing ++ s), .smart_append_file)
    | .buf b => (some b, .smart_append_file)

/-! ## Size-limited read (`readFileWithSizeLimit`) -/

/-- `MAX_INLINE_SIZE` (source `part_000`, line 753): 1 MiB. -/
def MAX_INLINE_SIZE : Nat := 1024 * 1024

/-- Result of `readFileWithSizeLimit`: the file bytes whose UTF-8 decoding is
returned, and whether the size warning was appended after them. -/
structure ReadResult where
  bytes : List Nat
  truncated : Bool
deriving DecidableEq

/-- `readFileWithSizeLimit` (source `part_000`, lines 767-788), over the
target file's bytes: when `stats.size > MAX_INLINE_SIZE` it reads only the
first `MAX_INLINE_SIZE` bytes and appends the warning note; otherwise it
returns the whole file. The warning text itself (file sizes in KiB) is
modelled by the `truncated` flag. -/
def readFileWithSizeLimit (file : List Nat) : ReadResult :=
  if MAX_INLINE_SIZE < file.length then
    { bytes := file.take MAX_INLINE_SIZE, truncated := true }
  else
    { bytes := file, truncated := false }

/-! ## Transport schema for `smart_append_file` -/

/-- JSON-ish values arriving from the transport layer. -/
inductive JsonValue where
  | jnull
  | jbool (b : Bool)
  | jnum (n : Int)
  | jstr (s : List Nat)
deriving DecidableEq

/-- The parsed form of `SmartAppendFileArgsSchema` (source `part_000`, lines
373-378). -/
structure SmartAppendArgs where
  path : List Nat
  content : List Nat
  chunkSize : Int
  logLevel : Option (List Nat)
deriving DecidableEq

/-- `SmartAppendFileArgsSchema.safeParse` (source `part_000`, lines 373-378):
`path` and `content` must be strings, `chunkSize` is
`z.number().optional().default(1024)` — ANY number is accepted, an absent
field becomes 1024 — and `logLevel` is an optional enum. `none` for an
argument models an absent (`undefined`) field. -/
def parseSmartAppendArgs (path content chunkSize logLevel : Option JsonValue) :
    Option SmartAppendArgs :=
  match path, content with
  | some (.jstr p), some (.jstr c) =>
    match chunkSize with
    | none => matchLog p c 1024 logLevel
    | some (.jnum n) => matchLog p c n logLevel
    | some _ => none
  | _, _ => none
where
  matchLog (p c : List Nat) (n : Int) (logLevel : Option JsonValue) :
      Option SmartAppendArgs :=
    match logLevel with
    | none => some ⟨p, c, n, none⟩
    | some (.jstr s) =>
      if s = s2u "debug" ∨ s = s2u "info" ∨ s = s2u "warn" ∨ s = s2u "error" then
        some ⟨p, c, n, some s⟩
      else none
    | some _ => none

/-! ## File-handle event traces -/

/-- Filesystem events relevant to handle accounting. `readRaise` marks a
`fd.read` call that throws. -/
inductive FsEvent where
  | statE
  | openE
  | readE
  | readRaise
  | closeE
  | appendE
  | writeE
deriving DecidableEq

/-- Handle events of one pass of `smartAppend`'s chunked tail read (source
`part_000`, lines 123-126): `fs.open`, `fd.read`, `fd.close` in straight-line
sequence with no `try`/`finally` around them. When the read throws, the
exception propagates (the surrounding `catch` at line 149 only logs and
rethrows), so the close never executes. -/
def smartAppendTailReadEvents (readOk : Bool) : List FsEvent :=
  if readOk then [.openE, .readE, .closeE] else [.openE, .readRaise]

/-- The read loop inside `streamReadFile`'s `try` block (source `part_000`,
lines 829-851): one `fd.read` per chunk until done, aborted by a throwing
read. `outcomes` lists whether each successive read succeeds. -/
def streamLoopEvents : List Bool → List FsEvent
  | [] => []
  | ok :: rest => (if ok then .readE else .readRaise) :: (if ok then streamLoopEvents rest else [])

/-- Handle events of `streamReadFile`'s chunked path (source `part_000`,
lines 826-855): open, the read loop, and a close in a `finally`, which runs
whether the loop finishes or a read throws. -/
def streamReadChunkedEvents (outcomes : List Bool) : List FsEvent :=
  .openE :: (streamLoopEvents outcomes ++ [.closeE])

/-- Number of handles a trace opens. -/
def opensIn (tr : List FsEvent) : Nat := tr.count .openE

/-- Number of handles a trace closes. -/
def closesIn (tr : List FsEvent) : Nat := tr.count .closeE

/-! ## Claims -/

/-- Claim C7 (confirmed): `findMaxOverlapSimple A B` returns the greatest
`k` with `0 ≤ k ≤ min |A| |B|` such that the last `k` code units of `A`
equal the first `k` code units of `B`; it returns 0 when `A` or `B` is
empty, and no `k` larger than the result matches. -/
theorem C7_findMaxOverlapSimple_greatest (s1 s2 : List Nat) :
    findMaxOverlapSimple s1 s2 ≤ min s1.length s2.length ∧
    overlapAt s1 s2 (findMaxOverlapSimple s1 s2) = true ∧
    (∀ k, k ≤ min s1.length s2.length → overlapAt s1 s2 k = true →
      k ≤ findMaxOverlapSimple s1 s2) ∧
    (s1 = [] ∨ s2 = [] → findMaxOverlapSimple s1 s2 = 0) := by
  refine ⟨findMaxOverlapSimple_le s1 s2, findMaxOverlapSimple_overlap s1 s2,
    fun k hk hat => findMaxOverlapSimple_max s1 s2 k hk hat, ?_⟩
  rintro (h | h) <;> subst h <;> simp [findMaxOverlapSimple, findMaxOverlapGo]

theorem C7_witness :
    5 ≤ findMaxOverlapSimple (s2u "hello world") (s2u "world peace") ∧
    findMaxOverlapSimple (s2u "hello world") (s2u "world peace") ≤ 11 :=
  ⟨(C7_findMaxOverlapSimple_greatest (s2u "hello world") (s2u "world peace")).2.2.1
      5 (by decide) (by decide),
   Nat.le_trans
     (C7_findMaxOverlapSimple_greatest (s2u "hello world") (s2u "world peace")).1
     (by decide)⟩

/-- Claim C2 (corrected): the two overlap algorithms do NOT agree on every
input — `findMaxOverlapRabinKarp` never reports an overlap of length 1-3
when the maximum possible overlap is at least `MIN_OVERLAP` (= 4). The
amended statement characterises the hash algorithm exactly: it equals the
direct algorithm whenever `min |A| |B| < 4` or the direct result is 0 or at
least 4, and returns 0 in the remaining cases. -/
theorem C2_amended_agreement (s1 s2 : List Nat) :
    findMaxOverlapRabinKarp s1 s2 =
      if min s1.length s2.length < MIN_OVERLAP then findMaxOverlapSimple s1 s2
      else if MIN_OVERLAP ≤ findMaxOverlapSimple s1 s2 then findMaxOverlapSimple s1 s2
      else 0 :=
  findMaxOverlapRabinKarp_eq s1 s2

/-- Claim C2, counterexample: on `A = "aaab"`, `B = "bcde"` the direct
algorithm finds the overlap `"b"` (length 1) while the hash algorithm
returns 0. -/
theorem C2_counterexample :
    findMaxOverlapSimple (s2u "aaab") (s2u "bcde") = 1 ∧
    findMaxOverlapRabinKarp (s2u "aaab") (s2u "bcde") = 0 ∧
    findMaxOverlapRabinKarp (s2u "aaab") (s2u "bcde") ≠
      findMaxOverlapSimple (s2u "aaab") (s2u "bcde") := by
  refine ⟨by decide, by decide, by decide⟩

/-- Claim C3 (confirmed): `smartAppend` on a missing file creates it with
exactly the given content; on an existing file in the full-read regime
(content at most `4 * initialChunkSize` encoded bytes, or file at most
`MAX_FILE_SIZE_FOR_FULL_READ` bytes) it leaves
`existing ++ content[k:]` with `k = findMaxOverlapSimple existing content`. -/
theorem C3_smartAppend_postcondition (existing content : List Nat) (chunk : Nat) :
    smartAppend none content chunk = some content ∧
    (utf8ByteLength content ≤ chunk * 4 ∨
        utf8ByteLength existing ≤ MAX_FILE_SIZE_FOR_FULL_READ →
      smartAppend (some existing) content chunk =
        some (existing ++ content.drop (findMaxOverlapSimple existing content))) :=
  ⟨rfl, fun h => smartAppend_full_read existing content chunk h⟩

theorem C3_witness :
    smartAppend none (s2u "Hello") 1024 = some (s2u "Hello") ∧
    smartAppend (some (s2u "abc")) (s2u "abc") 1024 = some (s2u "abc") ∧
    smartAppend (some (s2u "hello world")) (s2u "world peace") 1024 =
      some (s2u "hello world peace") := by
  refine ⟨(C3_smartAppend_postcondition [] (s2u "Hello") 1024).1, ?_, ?_⟩
  · exact ((C3_smartAppend_postcondition (s2u "abc") (s2u "abc") 1024).2
      (Or.inl (by decide))).trans (by decide)
  · exact ((C3_smartAppend_postcondition (s2u "hello world") (s2u "world peace") 1024).2
      (Or.inl (by decide))).trans (by decide)

/-- Claim C1 (corrected): the whole-subsystem invariant fails. Routed
through `enhancedPerformOptimizedWrite`, a resubmitted duplicate is
plain-appended by the integration layer's inline smart-append branch, so the
file does NOT end up at `existing ++ content[overlap:]`. The amended
invariant holds for the incremental-merge engine `smartAppend` itself: in
the full-read regime the file ends at `existing ++ content[overlap:]` with
`overlap` the true longest suffix/prefix match, and resubmitting the same
content appends zero bytes. -/
theorem C1_amended_merge_idempotent (existing content : List Nat) (chunk : Nat)
    (h1 : utf8ByteLength content ≤ chunk * 4 ∨
      utf8ByteLength existing ≤ MAX_FILE_SIZE_FOR_FULL_READ)
    (h2 : utf8ByteLength content ≤ chunk * 4 ∨
      utf8ByteLength (existing ++ content.drop (findMaxOverlapSimple existing content)) ≤
        MAX_FILE_SIZE_FOR_FULL_READ) :
    smartAppend (some existing) content chunk =
      some (existing ++ content.drop (findMaxOverlapSimple existing content)) ∧
    smartAppend (some (existing ++ content.drop (findMaxOverlapSimple existing content)))
        content chunk =
      some (existing ++ content.drop (findMaxOverlapSimple existing content)) := by
  refine ⟨smartAppend_full_read _ _ _ h1, ?_⟩
  rw [smartAppend_full_read _ _ _ h2, findMaxOverlapSimple_after_merge]
  simp

theorem C1_amended_witness :
    smartAppend (some (s2u "hello world")) (s2u "world peace") 1024 =
      some (s2u "hello world peace") ∧
    smartAppend (some (s2u "hello world peace")) (s2u "world peace") 1024 =
      some (s2u "hello world peace") := by
  have h := C1_amended_merge_idempotent (s2u "hello world") (s2u "world peace") 1024
    (Or.inl (by decide)) (Or.inl (by decide))
  have e : s2u "hello world" ++ (s2u "world peace").drop
      (findMaxOverlapSimple (s2u "hello world") (s2u "world peace")) =
      s2u "hello world peace" := by decide
  refine ⟨h.1.trans (by rw [e]), ?_⟩
  have h2 := h.2
  rw [e] at h2
  exact h2

/-- Claim C1, counterexample: with an existing file `"abab"` and content
`"ab"` (true overlap 2), the integration layer routes to its inline
smart-append branch and plain-appends, producing `"ababab"` instead of the
invariant's `"abab"`. -/
theorem C1_counterexample :
    enhancedPerformOptimizedWrite (some (s2u "abab")) (.str (s2u "ab")) none false
        DEFAULT_CONFIG =
      (some (s2u "ababab"), .smart_append_file) ∧
    s2u "ababab" ≠
      s2u "abab" ++ (s2u "ab").drop (findMaxOverlapSimple (s2u "abab") (s2u "ab")) := by
  refine ⟨by decide, by decide⟩

/-- Claim C4 (corrected): an explicit `requestedFunction` is NOT used
verbatim — `determineOptimalWriteMethod` consults it only inside the
file-exists rule, after the marker and size rules have passed. The amended
statement: with no full rewrite, content that carries the completion marker
(or is binary) and does not exceed the large-content threshold, an explicit
`write_file` request on an existing file is honored. -/
theorem C4_amended_requested_honored (path : List Nat) (content : JSContent)
    (cfg : CCConfig) (hc : isContentComplete content cfg = true)
    (hs : contentSizeOf content ≤ cfg.largeThreshold) :
    determineOptimalWriteMethod path content true (some .write_file) false cfg =
      .write_file := by
  unfold determineOptimalWriteMethod
  cases content with
  | str s => simp [hc, Nat.not_lt.mpr hs]
  | buf b => simp [Nat.not_lt.mpr hs]

theorem C4_amended_witness :
    determineOptimalWriteMethod (s2u "notes.txt")
      (.str (s2u "done// END_OF_CONTENT")) true (some .write_file) false
      DEFAULT_CONFIG = .write_file :=
  C4_amended_requested_honored (s2u "notes.txt")
    (.str (s2u "done// END_OF_CONTENT")) DEFAULT_CONFIG (by decide) (by decide)

/-- Claim C4, counterexample: the caller explicitly requests `write_file`
for marker-less text on an existing file, and the selector overrides it with
`smart_append_file` — the explicit request does not win. -/
theorem C4_counterexample :
    determineOptimalWriteMethod (s2u "notes.txt") (.str (s2u "draft")) true
        (some .write_file) false DEFAULT_CONFIG = .smart_append_file ∧
    WriteMethod.smart_append_file ≠ .write_file := by
  refine ⟨by decide, by decide⟩

/-- Claim C5 (corrected): binary content is NOT routed to Overwrite — the
selector never consults the binary-extension list or the path at all. The
amended statement: binary (non-string) content with no explicit override
follows the size/existence rules; on an existing file the selector always
picks `smart_append_file`, and only on a missing file with size at most the
large-content threshold does it pick `write_file`. -/
theorem C5_amended_binary_routing (path : List Nat) (b : List Nat) (cfg : CCConfig) :
    determineOptimalWriteMethod path (.buf b) true none false cfg =
      .smart_append_file ∧
    (b.length ≤ cfg.largeThreshold →
      determineOptimalWriteMethod path (.buf b) false none false cfg = .write_file) := by
  constructor
  · unfold determineOptimalWriteMethod
    by_cases h : cfg.largeThreshold < b.length <;> simp [h, contentSizeOf]
  · intro hs
    unfold determineOptimalWriteMethod
    simp [Nat.not_lt.mpr hs, contentSizeOf]

theorem C5_amended_witness :
    determineOptimalWriteMethod (s2u "document.pdf") (.buf [37, 80, 68, 70]) false
        none false DEFAULT_CONFIG = .write_file :=
  (C5_amended_binary_routing (s2u "document.pdf") [37, 80, 68, 70] DEFAULT_CONFIG).2
    (by decide)

/-- Claim C5, counterexample: a `.pdf` path with binary content on an
existing file, no override — the selector picks `smart_append_file`, not the
claimed Overwrite. -/
theorem C5_counterexample :
    determineOptimalWriteMethod (s2u "document.pdf") (.buf [37, 80, 68, 70]) true
        none false DEFAULT_CONFIG = .smart_append_file ∧
    WriteMethod.smart_append_file ≠ .write_file := by
  refine ⟨by decide, by decide⟩

/-- Claim C6 (corrected): `removeCompletionMarker` removes the sentinel plus
any trailing whitespace AFTER it, not before it, and is a no-op on content
with no trailing marker. Writing `"final text\n// END_OF_CONTENT"` to a
missing small file does use the Overwrite strategy (`write_file`), but the
final file content is `"final text\n"` — the newline before the marker is
kept. -/
theorem C6_amended_strip (s : List Nat) (cfg : CCConfig)
    (h : hasTrailingMarker s cfg.marker = false) :
    removeCompletionMarker (.str s) cfg = .str s ∧
    removeCompletionMarker (.str (s2u "final text\n// END_OF_CONTENT"))
        DEFAULT_CONFIG = .str (s2u "final text\n") ∧
    enhancedPerformOptimizedWrite none
        (.str (s2u "final text\n// END_OF_CONTENT")) none false DEFAULT_CONFIG =
      (some (s2u "final text\n"), .write_file) := by
  refine ⟨?_, by decide, by decide⟩
  have hnone : (List.range (s.length + 1)).find? (trailingMarkerAt s cfg.marker) = none := by
    rw [List.find?_eq_none]
    intro i hi hcon
    have htrue : hasTrailingMarker s cfg.marker = true :=
      List.any_eq_true.mpr ⟨i, hi, hcon⟩
    exact Bool.noConfusion (h.symm.trans htrue)
  simp only [removeCompletionMarker, hnone]

theorem C6_amended_witness :
    removeCompletionMarker (.str (s2u "plain draft text")) DEFAULT_CONFIG =
      .str (s2u "plain draft text") :=
  (C6_amended_strip (s2u "plain draft text") DEFAULT_CONFIG (by decide)).1

/-- Claim C6, counterexample: the scenario's final file content is
`"final text\n"`, not the claimed `"final text"`. -/
theorem C6_counterexample :
    enhancedPerformOptimizedWrite none
        (.str (s2u "final text\n// END_OF_CONTENT")) none false DEFAULT_CONFIG =
      (some (s2u "final text\n"), .write_file) ∧
    some (s2u "final text\n") ≠ some (s2u "final text") := by
  refine ⟨by decide, by decide⟩

/-- Claim C8 (corrected): a zero or negative `chunkSize` is NOT rejected —
`SmartAppendFileArgsSchema` places no range constraint on it. The amended
statement: the schema accepts any numeric `chunkSize` verbatim (and defaults
an absent one to 1024), so such requests reach `smartAppend` and its
filesystem work instead of being rejected as malformed. -/
theorem C8_amended_no_chunk_validation (p c : List Nat) (n : Int) :
    parseSmartAppendArgs (some (.jstr p)) (some (.jstr c)) (some (.jnum n)) none =
      some ⟨p, c, n, none⟩ ∧
    parseSmartAppendArgs (some (.jstr p)) (some (.jstr c)) none none =
      some ⟨p, c, 1024, none⟩ :=
  ⟨rfl, rfl⟩

/-- Claim C8, counterexample: a request with `chunkSize = 0` passes schema
validation, and `smartAppend` then runs to completion on it (performing its
stat, read and append) rather than rejecting it before I/O. -/
theorem C8_counterexample :
    parseSmartAppendArgs (some (.jstr (s2u "/tmp/f.txt"))) (some (.jstr (s2u "x")))
        (some (.jnum 0)) none =
      some ⟨s2u "/tmp/f.txt", s2u "x", 0, none⟩ ∧
    smartAppend (some (s2u "ab")) (s2u "x") 0 = some (s2u "abx") := by
  refine ⟨by decide, by decide⟩

theorem streamLoopEvents_no_handles (outcomes : List Bool) :
    (streamLoopEvents outcomes).count FsEvent.openE = 0 ∧
    (streamLoopEvents outcomes).count FsEvent.closeE = 0 := by
  induction outcomes with
  | nil => simp [streamLoopEvents]
  | cons ok rest ih =>
    cases ok <;> simp [streamLoopEvents, List.count_cons, ih.1, ih.2]

/-- Claim C9 (corrected): not every handle is released on every exit path.
`streamReadFile`'s chunked loop does close its handle via `finally` on every
exit, but `smartAppend`'s tail read (open/read/close in straight line, no
`finally`) leaks its handle when the read throws. The amended statement:
the chunked-loop trace always balances opens with closes, while the tail
read closes its handle exactly when the read succeeds. -/
theorem C9_amended_handle_release (outcomes : List Bool) (readOk : Bool) :
    closesIn (streamReadChunkedEvents outcomes) = 1 ∧
    opensIn (streamReadChunkedEvents outcomes) = 1 ∧
    closesIn (smartAppendTailReadEvents readOk) = (if readOk then 1 else 0) ∧
    opensIn (smartAppendTailReadEvents readOk) = 1 := by
  have h := streamLoopEvents_no_handles outcomes
  refine ⟨?_, ?_, ?_, ?_⟩
  · simp [closesIn, streamReadChunkedEvents, List.count_cons, List.count_append, h.2]
  · simp [opensIn, streamReadChunkedEvents, List.count_cons, List.count_append, h.1]
  · cases readOk <;> decide
  · cases readOk <;> decide

/-- Claim C9, counterexample: on the exit path where `fd.read` throws inside
`smartAppend`'s chunked tail read, the trace opens one handle and closes
none — the operation terminates leaving a handle it opened still open. -/
theorem C9_counterexample :
    opensIn (smartAppendTailReadEvents false) = 1 ∧
    closesIn (smartAppendTailReadEvents false) = 0 := by
  refine ⟨by decide, by decide⟩

/-- Claim C10 (confirmed): `readFileWithSizeLimit` returns the complete file
exactly when the file is at most `MAX_INLINE_SIZE` (1 MiB) bytes; for any
larger file it returns only the first `MAX_INLINE_SIZE` bytes with the
warning note appended, never the remainder. -/
theorem C10_read_file_size_limit (file : List Nat) :
    (file.length ≤ MAX_INLINE_SIZE →
      readFileWithSizeLimit file = { bytes := file, truncated := false }) ∧
    (MAX_INLINE_SIZE < file.length →
      readFileWithSizeLimit file =
        { bytes := file.take MAX_INLINE_SIZE, truncated := true } ∧
      (readFileWithSizeLimit file).bytes.length = MAX_INLINE_SIZE) := by
  constructor
  · intro h
    simp [readFileWithSizeLimit, Nat.not_lt.mpr h]
  · intro h
    refine ⟨by simp [readFileWithSizeLimit, h], ?_⟩
    simp only [readFileWithSizeLimit, if_pos h, List.length_take]
    omega

theorem C10_witness :
    readFileWithSizeLimit [65] = { bytes := [65], truncated := false } ∧
    readFileWithSizeLimit (List.replicate (MAX_INLINE_SIZE + 1) 65) =
      { bytes := List.replicate MAX_INLINE_SIZE 65, truncated := true } := by
  constructor
  · exact (C10_read_file_size_limit [65]).1 (by decide)
  · have htake : (List.replicate (MAX_INLINE_SIZE + 1) (65 : Nat)).take MAX_INLINE_SIZE =
        List.replicate MAX_INLINE_SIZE 65 := by
      rw [List.take_replicate]
      have hmin : min MAX_INLINE_SIZE (MAX_INLINE_SIZE + 1) = MAX_INLINE_SIZE := by omega
      rw [hmin]
    have h := ((C10_read_file_size_limit (List.replicate (MAX_INLINE_SIZE + 1) 65)).2
      (by rw [List.length_replicate]; omega)).1
    rw [h, htake]
